import Mathlib

/-!
# Verification of the `faba_ntag.py` NTAG memory-model engine

A shallow embedding of the NTAG-specific core of `faba_ntag.py`:
the page store (`NTAGData`), the type detector (`detect_card`), the NDEF
codec (`parse_text`, `encode_faba_id`), the layout builder
(`create_byte_array`), the write/verify protocol (`write_blocks`,
`verify_blocks`, `write_ntag`) and the dump-file naming (`dump_ntag`).

Conventions of the embedding:
* bytes are `Nat` (all values stored by the program are `< 256`);
* Python strings handled by the codec are embedded as their ASCII/UTF-8
  code sequences (`List Nat`), since the program only ever passes
  ASCII payload text whose UTF-8 encoding is the identity on codes;
* Python `dict` page maps are association lists with first-match lookup;
* code paths that raise in Python are `none` / explicit error constructors.
-/

namespace FabaNtag

/-- The page map of `NTAGData`: Python dict from page index to the page's
byte list, embedded as an association list with first-match lookup. -/
abbrev PageStore := List (Nat × List Nat)

/-- Dict lookup `self.pages[page_number]` guarded by `page_number in self.pages`. -/
def lookupPage : PageStore → Nat → Option (List Nat)
  | [], _ => none
  | (k, v) :: rest, p => if k = p then some v else lookupPage rest p

/-- The `NTAGData` object: page dict, `uid`, `type` and `size` fields. -/
structure NTAGData where
  pages : PageStore
  uid : List Nat
  type : String
  size : Nat

/-- `NTAGData.read_page`: returns the page if present, `None` otherwise. -/
def NTAGData.read_page (ntag : NTAGData) (page_number : Nat) : Option (List Nat) :=
  lookupPage ntag.pages page_number

/-- `detect_card`, after its sequential read loop.  The loop reads pages
`0, 1, 2, ...` from the hardware until the first failed read, so its net
effect is captured by `pfx`, the list of successfully read pages in order;
the loop's final `page` counter is `pfx.length`.  The function then reads
the capability byte `ntag.read_page(3)[2]` and classifies the tag.
`none` models the exception Python raises when page 3 was never stored
(`None[2]`, a `TypeError`) or is shorter than 3 bytes (`IndexError`);
otherwise the result is the `(ntag.type, ntag.size)` pair the code sets. -/
def detect_card (pfx : List (List Nat)) : Option (String × Nat) :=
  match pfx[3]? with
  | none => none
  | some p3 =>
    match p3[2]? with
    | none => none
    | some cc_byte =>
      let page := pfx.length
      if cc_byte = 0x12 then
        if page = 42 then some ("NTAG203", page)
        else if page = 45 then some ("NTAG213", page)
        else some ("NTAG213", 45)
      else if cc_byte = 0x3E then
        if page = 135 then some ("NTAG215", page)
        else some ("NTAG215", 135)
      else if cc_byte = 0x6D then
        if page = 231 then some ("NTAG216", page)
        else some ("NTAG216", 231)
      else some ("Unknown", page)

/-- C1: whenever page 3 of the page store holds a 4-byte value whose byte 2
is the capability byte `cc`, `detect_card` returns the canonical
`(variant, total_pages)` pair of the CC table, regardless of the observed
page count: `0x12` with count 42 gives `(NTAG203, 42)`, `0x12` with any
other count gives `(NTAG213, 45)`, `0x3E` gives `(NTAG215, 135)`, `0x6D`
gives `(NTAG216, 231)`, and any other CC gives `(Unknown, observed count)`. -/
theorem detect_card_canonical (pfx : List (List Nat)) (p3 : List Nat) (cc : Nat)
    (h3 : pfx[3]? = some p3) (_hlen : p3.length = 4) (hcc : p3[2]? = some cc) :
    detect_card pfx = some (
      if cc = 0x12 then
        (if pfx.length = 42 then ("NTAG203", 42) else ("NTAG213", 45))
      else if cc = 0x3E then ("NTAG215", 135)
      else if cc = 0x6D then ("NTAG216", 231)
      else ("Unknown", pfx.length)) := by
  simp only [detect_card, h3, hcc]
  split_ifs <;> simp_all

/-- Witness for C1: a clone with CC `0x3E` and an observed page count of 100
is classified `(NTAG215, 135)`. -/
theorem detect_card_canonical_witness :
    detect_card (List.replicate 100 [0xE1, 0x10, 0x3E, 0x00]) =
      some ("NTAG215", 135) := by
  have h := detect_card_canonical (List.replicate 100 [0xE1, 0x10, 0x3E, 0x00])
    [0xE1, 0x10, 0x3E, 0x00] 0x3E (by decide) (by decide) (by decide)
  simpa using h

/-- C10: the detection pass returns normally only when page 3 is in the page
store.  If the sequential read failed at or before page 3 (fewer than 4
pages were stored), the capability-container lookup subscripts the `None`
result of `read_page(3)` and raises (`none` here) instead of classifying
the tag as `Unknown`; when pages 0–3 were read (and page 3 has its byte 2),
detection returns normally. -/
theorem detect_card_requires_page3 (pfx : List (List Nat)) :
    (pfx.length ≤ 3 → detect_card pfx = none) ∧
    (∀ p3, pfx[3]? = some p3 → 3 ≤ p3.length → (detect_card pfx).isSome) := by
  constructor
  · intro h
    have h3 : pfx[3]? = none := by
      rw [List.getElem?_eq_none_iff]
      omega
    simp only [detect_card, h3]
  · intro p3 h3 hlen
    rcases h2 : p3[2]? with _ | cc
    · rw [List.getElem?_eq_none_iff] at h2
      omega
    · simp only [detect_card, h3, h2]
      split_ifs <;> simp

/-- Witness for C10: a single-page read prefix (read failure at page 1, so
page 3 absent) makes detection raise rather than classify. -/
theorem detect_card_requires_page3_witness :
    detect_card [[0, 0, 0, 0]] = none :=
  (detect_card_requires_page3 [[0, 0, 0, 0]]).1 (by decide)

/-- The payload-accumulation inner loop of `parse_text`
(`for byte in page_data: if remaining_bytes == 0 or byte == 0xFE: break`):
the bytes appended from one page's data, and the updated remaining count.
Note the `break` leaves only this inner loop. -/
def takePayload : List Nat → Nat → List Nat × Nat
  | [], remaining => ([], remaining)
  | b :: bs, remaining =>
    if remaining = 0 ∨ b = 0xFE then ([], remaining)
    else
      let t := takePayload bs (remaining - 1)
      (b :: t.1, t.2)

/-- The outer `while remaining_bytes > 0` loop of `parse_text`, reading
consecutive pages from `next_page` on and stopping at a missing page.
The Python loop terminates because the page dict is finite: every iteration
performs a successful lookup at a fresh index, so there are at most
`pages.length` iterations.  `fuel` makes that bound explicit;
`accumPayload_fuel_stable` shows the result is stable once `fuel` exceeds
the number of entries at indices `≥ next_page`, so the `pages.length + 1`
fuel used by `parse_text` computes the loop's actual limit. -/
def accumPayload (pages : PageStore) : Nat → Nat → Nat → List Nat
  | 0, _, _ => []
  | fuel + 1, next_page, remaining =>
    if remaining = 0 then []
    else
      match lookupPage pages next_page with
      | none => []
      | some page_data =>
        let t := takePayload page_data remaining
        t.1 ++ accumPayload pages fuel (next_page + 1) t.2

/-- Number of page-dict entries with index at least `n`. -/
def countKeysGE (pages : PageStore) (n : Nat) : Nat :=
  (pages.filter (fun kv => decide (n ≤ kv.1))).length

theorem countKeysGE_succ_le (pages : PageStore) (n : Nat) :
    countKeysGE pages (n + 1) ≤ countKeysGE pages n := by
  unfold countKeysGE
  exact (List.monotone_filter_right pages
    (by intro kv h; simp_all; omega)).length_le

theorem lookupPage_countKeysGE (pages : PageStore) (n : Nat) (pd : List Nat)
    (h : lookupPage pages n = some pd) :
    countKeysGE pages (n + 1) < countKeysGE pages n := by
  induction pages with
  | nil => simp [lookupPage] at h
  | cons kv rest ih =>
    simp only [lookupPage] at h
    by_cases hk : kv.1 = n
    · have h1 : countKeysGE (kv :: rest) n = countKeysGE rest n + 1 := by
        simp [countKeysGE, List.filter, hk]
      have h2 : countKeysGE (kv :: rest) (n + 1) = countKeysGE rest (n + 1) := by
        simp [countKeysGE, List.filter, hk]
      have h3 := countKeysGE_succ_le rest n
      omega
    · rw [if_neg hk] at h
      have h4 := ih h
      rcases le_or_lt (n + 1) kv.1 with hge | hlt
      · have h1 : countKeysGE (kv :: rest) n = countKeysGE rest n + 1 := by
          simp [countKeysGE, List.filter, decide_eq_true (by omega : n ≤ kv.1)]
        have h2 : countKeysGE (kv :: rest) (n + 1) = countKeysGE rest (n + 1) + 1 := by
          simp [countKeysGE, List.filter, decide_eq_true hge]
        omega
      · have hlt' : kv.1 < n := by omega
        have h1 : countKeysGE (kv :: rest) n = countKeysGE rest n := by
          simp [countKeysGE, List.filter, decide_eq_false (by omega : ¬ n ≤ kv.1)]
        have h2 : countKeysGE (kv :: rest) (n + 1) = countKeysGE rest (n + 1) := by
          simp [countKeysGE, List.filter, decide_eq_false (by omega : ¬ n + 1 ≤ kv.1)]
        omega

/-- Single-step unfolding of the outer page loop. -/
theorem accumPayload_succ (pages : PageStore) (fuel n r : Nat) :
    accumPayload pages (fuel + 1) n r =
      if r = 0 then []
      else
        match lookupPage pages n with
        | none => []
        | some pd =>
          (takePayload pd r).1 ++ accumPayload pages fuel (n + 1) (takePayload pd r).2 :=
  rfl

/-- Fuel adequacy for `accumPayload`: beyond the number of entries at
indices `≥ next_page`, adding fuel does not change the result, so the
Python loop's limit is what any sufficient fuel computes. -/
theorem accumPayload_fuel_stable (pages : PageStore) :
    ∀ fuel n r, countKeysGE pages n < fuel →
      accumPayload pages fuel n r = accumPayload pages (fuel + 1) n r := by
  intro fuel
  induction fuel with
  | zero => intro n r h; omega
  | succ fuel ih =>
    intro n r h
    rw [accumPayload_succ, accumPayload_succ]
    by_cases hr : r = 0
    · simp [hr]
    · rw [if_neg hr, if_neg hr]
      cases hl : lookupPage pages n with
      | none => rfl
      | some pd =>
        have hc := lookupPage_countKeysGE pages n pd hl
        dsimp only
        rw [ih (n + 1) (takePayload pd r).2 (by omega)]

/-- Python `bytes.decode("ascii")`: raises unless every byte is below 0x80;
on ASCII input the code points are the bytes themselves. -/
def decodeAscii (bs : List Nat) : Option (List Nat) :=
  if bs.all (fun b => decide (b < 0x80)) then some bs else none

/-- Byte-at-a-time UTF-8 decoding automaton: `k` is the number of pending
continuation bytes of the current sequence, `lo`/`hi` bound the next
continuation byte (the lead bytes `E0`/`ED`/`F0`/`F4` restrict their first
continuation byte; later continuations are plain `80..BF`), and `acc` is
the partial code point.  `none` on any invalid byte or a truncated final
sequence — exactly the sequences strict CPython `bytes.decode("utf-8")`
rejects (overlong forms, surrogates, leads above `F4`, bare
continuations). -/
def utf8Aux : List Nat → Nat → Nat → Nat → Nat → Option (List Nat)
  | [], k, _, _, _ => if k = 0 then some [] else none
  | b :: bs, k, lo, hi, acc =>
    if k = 0 then
      if b ≤ 0x7F then (utf8Aux bs 0 0 0 0).map (fun cs => b :: cs)
      else if decide (0xC2 ≤ b) && decide (b ≤ 0xDF) then
        utf8Aux bs 1 0x80 0xBF (b - 0xC0)
      else if decide (0xE0 ≤ b) && decide (b ≤ 0xEF) then
        utf8Aux bs 2 (if b = 0xE0 then 0xA0 else 0x80)
          (if b = 0xED then 0x9F else 0xBF) (b - 0xE0)
      else if decide (0xF0 ≤ b) && decide (b ≤ 0xF4) then
        utf8Aux bs 3 (if b = 0xF0 then 0x90 else 0x80)
          (if b = 0xF4 then 0x8F else 0xBF) (b - 0xF0)
      else none
    else
      if decide (lo ≤ b) && decide (b ≤ hi) then
        if k = 1 then
          (utf8Aux bs 0 0 0 0).map (fun cs => (acc * 0x40 + (b - 0x80)) :: cs)
        else utf8Aux bs (k - 1) 0x80 0xBF (acc * 0x40 + (b - 0x80))
      else none

/-- Python `bytes.decode("utf-8")` (strict): the code points of a valid
UTF-8 byte sequence, `none` (an exception) on invalid input. -/
def decodeUtf8 (bs : List Nat) : Option (List Nat) := utf8Aux bs 0 0 0 0

/-- UTF-16 code units from bytes, little-endian pairing; `none` on a
trailing odd byte. -/
def utf16UnitsLE : List Nat → Option (List Nat)
  | [] => some []
  | [_] => none
  | a :: b :: rest => (utf16UnitsLE rest).map (fun us => (a + 0x100 * b) :: us)

/-- UTF-16 code units from bytes, big-endian pairing. -/
def utf16UnitsBE : List Nat → Option (List Nat)
  | [] => some []
  | [_] => none
  | a :: b :: rest => (utf16UnitsBE rest).map (fun us => (0x100 * a + b) :: us)

/-- Code points from UTF-16 code units, pairing surrogates; `none` on an
unpaired surrogate. -/
def utf16Combine : List Nat → Option (List Nat)
  | [] => some []
  | u :: us =>
    if u < 0xD800 ∨ 0xE000 ≤ u then (utf16Combine us).map (fun cs => u :: cs)
    else if u ≤ 0xDBFF then
      match us with
      | v :: us2 =>
        if 0xDC00 ≤ v ∧ v ≤ 0xDFFF then
          (utf16Combine us2).map
            (fun cs => (0x10000 + (u - 0xD800) * 0x400 + (v - 0xDC00)) :: cs)
        else none
      | [] => none
    else none

/-- Python `bytes.decode("utf-16")`: BOM sniffing with little-endian
default, strict (odd length and unpaired surrogates raise, i.e. `none`). -/
def decodeUtf16 (bs : List Nat) : Option (List Nat) :=
  match bs with
  | 0xFF :: 0xFE :: rest => (utf16UnitsLE rest).bind utf16Combine
  | 0xFE :: 0xFF :: rest => (utf16UnitsBE rest).bind utf16Combine
  | _ => (utf16UnitsLE bs).bind utf16Combine

/-- The observable outcome of `parse_text`, one constructor per exit path
of the Python function: `noPage6` and `insufficientData` are its two
logged-error early returns, `raised` models an uncaught exception
(indexing a too-short page 6, or a decode error), `fabaId` is the
`ntag.code = extracted_id` success path, and `noId` the
"No valid Faba folder ID found" path. -/
inductive ParseResult where
  | noPage6 : ParseResult
  | insufficientData : ParseResult
  | raised : ParseResult
  | fabaId : List Nat → ParseResult
  | noId : ParseResult
deriving DecidableEq

/-- ASCII codes of the fixed FabaID marker string `"02190530"`. -/
def fabaMarker : List Nat := [0x30, 0x32, 0x31, 0x39, 0x30, 0x35, 0x33, 0x30]

/-- `parse_text`: parse page 6 as the NDEF record header, accumulate the
payload from page 7 on, split language code and text, and extract the
FabaID when the text starts with `"02190530"` and has length ≥ 12.
A `type_field` other than 0x54 is only logged ("No text record found"):
the early `return` in that branch is commented out in the source, so
parsing continues with the same fixed offsets either way. -/
def parse_text (ntag : NTAGData) : ParseResult :=
  match ntag.read_page 6 with
  | none => .noPage6
  | some page6 =>
    match page6[0]?, page6[1]?, page6[2]?, page6[3]? with
    | some _ndef_header, some payload_length, some _type_field, some status_byte =>
      let lang_length := status_byte &&& 0x3F
      let full_payload :=
        accumPayload ntag.pages (ntag.pages.length + 1) 7 payload_length
      if full_payload.length < lang_length then .insufficientData
      else
        match decodeAscii (full_payload.take lang_length),
          (if status_byte &&& 0x80 ≠ 0 then decodeUtf16 (full_payload.drop lang_length)
           else decodeUtf8 (full_payload.drop lang_length)) with
        | some _lang_code, some text_content =>
          if fabaMarker.isPrefixOf text_content ∧ 12 ≤ text_content.length then
            .fabaId ((text_content.drop 8).take 4)
          else .noId
        | _, _ => .raised
    | _, _, _, _ => .raised

/-- A page's data truncated at its first 0xFE terminator byte. -/
def truncAtTerminator : List Nat → List Nat
  | [] => []
  | b :: bs => if b = 0xFE then [] else b :: truncAtTerminator bs

theorem takePayload_trunc (pd : List Nat) :
    ∀ r, takePayload (truncAtTerminator pd) r = takePayload pd r := by
  induction pd with
  | nil => intro r; rfl
  | cons b bs ih =>
    intro r
    by_cases hb : b = 0xFE
    · subst hb
      by_cases hr : r = 0 <;> simp [truncAtTerminator, takePayload, hr]
    · by_cases hr : r = 0 <;> simp [truncAtTerminator, takePayload, hb, hr, ih]

theorem lookupPage_trunc (pages : PageStore) (n : Nat) :
    lookupPage (pages.map (fun kv => (kv.1, truncAtTerminator kv.2))) n =
      (lookupPage pages n).map truncAtTerminator := by
  induction pages with
  | nil => rfl
  | cons kv rest ih =>
    by_cases h : kv.1 = n <;> simp [lookupPage, h, ih]

/-- Counterexample to C4: decode a store whose page 6 header asks for 6
payload bytes, with page 7 = `[0x41, 0xFE, 0x42, 0x43]` and
page 8 = `[0x44, 0, 0, 0]` (fuel is `pages.length + 1`, exactly as
`parse_text` invokes the loop).  The 0xFE in page 7 is met before
`payload_length` bytes have been accumulated, yet byte 0x44 — located in
a later page than that 0xFE — is appended to the payload buffer: the
`break` leaves only the per-page loop, and the outer loop keeps reading. -/
theorem accumPayload_appends_after_terminator :
    accumPayload [(6, [0x01, 0x06, 0x54, 0x02]), (7, [0x41, 0xFE, 0x42, 0x43]),
        (8, [0x44, 0, 0, 0])] 4 7 6 = [0x41, 0x44, 0, 0, 0] ∧
      0x44 ∈ accumPayload [(6, [0x01, 0x06, 0x54, 0x02]), (7, [0x41, 0xFE, 0x42, 0x43]),
        (8, [0x44, 0, 0, 0])] 4 7 6 := by
  decide

/-- C4 amended: a terminator byte 0xFE stops payload accumulation only
within the page that contains it.  No byte at or after the first 0xFE of a
page is ever appended from that page — truncating every page at its first
0xFE leaves the accumulated payload unchanged, for every page store, fuel,
start page and remaining count — but accumulation then continues with the
following pages while fewer than `payload_length` bytes have been
accumulated (see the counterexample above). -/
theorem accumPayload_trunc_invariant (pages : PageStore) :
    ∀ fuel n r,
      accumPayload (pages.map (fun kv => (kv.1, truncAtTerminator kv.2))) fuel n r =
        accumPayload pages fuel n r := by
  intro fuel
  induction fuel with
  | zero => intro n r; rfl
  | succ fuel ih =>
    intro n r
    rw [accumPayload_succ, accumPayload_succ, lookupPage_trunc]
    by_cases hr : r = 0
    · simp [hr]
    · rw [if_neg hr, if_neg hr]
      cases hl : lookupPage pages n with
      | none => rfl
      | some pd =>
        simp only [Option.map_some']
        rw [takePayload_trunc, ih]

/-- Overwrite byte 2 of the stored page 6 (the Text-Record type field),
leaving every other byte of the page store unchanged. -/
def setPage6Type (ntag : NTAGData) (t : Nat) : NTAGData :=
  { ntag with
    pages := ntag.pages.map (fun kv => if kv.1 = 6 then (kv.1, kv.2.set 2 t) else kv) }

theorem lookupPage_mapAt (pages : PageStore) (k : Nat) (g : List Nat → List Nat) (n : Nat) :
    lookupPage (pages.map (fun kv => if kv.1 = k then (kv.1, g kv.2) else kv)) n =
      if n = k then (lookupPage pages n).map g else lookupPage pages n := by
  induction pages with
  | nil => simp [lookupPage]
  | cons kv rest ih =>
    obtain ⟨k1, v1⟩ := kv
    simp only [List.map_cons]
    by_cases h1 : k1 = k
    · rw [if_pos h1]
      subst h1
      by_cases h2 : n = k1
      · subst h2
        simp [lookupPage]
      · have h2' : ¬ k1 = n := fun h => h2 h.symm
        simp [lookupPage, h2, h2', ih]
    · rw [if_neg h1]
      by_cases h2 : k1 = n
      · subst h2
        have hnk : ¬ k1 = k := h1
        simp [lookupPage, hnk]
      · simp [lookupPage, h2, ih]

theorem accumPayload_mapAt6_ne (pages : PageStore) (g : List Nat → List Nat) :
    ∀ fuel n r, 6 < n →
      accumPayload (pages.map (fun kv => if kv.1 = 6 then (kv.1, g kv.2) else kv))
          fuel n r =
        accumPayload pages fuel n r := by
  intro fuel
  induction fuel with
  | zero => intro n r _; rfl
  | succ fuel ih =>
    intro n r hn
    rw [accumPayload_succ, accumPayload_succ, lookupPage_mapAt,
      if_neg (by omega : ¬ n = 6)]
    by_cases hr : r = 0
    · simp [hr]
    · rw [if_neg hr, if_neg hr]
      cases hl : lookupPage pages n with
      | none => rfl
      | some pd =>
        dsimp only
        rw [ih (n + 1) (takePayload pd r).2 (by omega)]

/-- C7: the value of the Text-Record type field (byte 2 of the stored
page 6) never affects `parse_text`'s outcome — overwriting it with any
value, in particular one different from 0x54, neither raises nor aborts
and yields the very same result, because parsing continues with the same
fixed offsets and the header's payload length; and on a store whose
decoded text lacks the FabaID marker (here with type field 0x99 ≠ 0x54)
the result is `noId` ("no identifier found"), not an error. -/
theorem parse_text_type_field_irrelevant :
    (∀ (ntag : NTAGData) (t : Nat), parse_text (setPage6Type ntag t) = parse_text ntag) ∧
      parse_text ⟨[(6, [0x01, 0x06, 0x99, 0x02]), (7, [0x65, 0x6E, 0x41, 0x42]),
        (8, [0x43, 0x44, 0, 0])], [], "Unknown", 45⟩ = .noId := by
  constructor
  · intro ntag t
    unfold parse_text setPage6Type NTAGData.read_page
    dsimp only
    rw [List.length_map]
    have h6 := lookupPage_mapAt ntag.pages 6 (fun v => v.set 2 t) 6
    rw [if_pos rfl] at h6
    rw [h6]
    have hacc := fun fuel r =>
      accumPayload_mapAt6_ne ntag.pages (fun v => v.set 2 t) fuel 7 r (by omega)
    simp only [hacc]
    cases hp : lookupPage ntag.pages 6 with
    | none => rfl
    | some page6 =>
      simp only [Option.map_some']
      rcases page6 with _ | ⟨a, _ | ⟨b, _ | ⟨c, _ | ⟨d, rest⟩⟩⟩⟩ <;>
        simp [List.set]
  · decide

/-- The `size_to_mlen` table of `create_byte_array`, including the
`.get(ntag.size, 0xA0)` default. -/
def size_to_mlen (size : Nat) : Nat :=
  if size = 42 then 0x6D
  else if size = 45 then 0xA0
  else if size = 135 then 0xE0
  else if size = 231 then 0xFA
  else 0xA0

/-- One iteration of the pages 00–03 / 07–10 copy loops of
`create_byte_array`: the stored page when present with exactly 4 bytes,
else a default all-zero page. -/
def pageOrZero (ntag : NTAGData) (i : Nat) : List Nat :=
  match ntag.read_page i with
  | some page => if page.length = 4 then page else [0x00, 0x00, 0x00, 0x00]
  | none => [0x00, 0x00, 0x00, 0x00]

/-- The pages 07–10 fallback of `create_byte_array` (pure read/dump path). -/
def readPages7_10 (ntag : NTAGData) : List Nat :=
  pageOrZero ntag 7 ++ pageOrZero ntag 8 ++ pageOrZero ntag 9 ++ pageOrZero ntag 10

/-- The fixed manufacturer-default trailer `last5` (5 pages, 20 bytes). -/
def last5 : List Nat :=
  [0x00, 0x00, 0x00, 0xBD, 0x04, 0x00, 0x00, 0xFF,
   0x00, 0x00, 0x00, 0x00, 0x00, 0x00, 0x00, 0x00, 0x00, 0x00, 0x00, 0x00]

/-- `create_byte_array(input_str, ntag)`.  `input_str` carries the UTF-8
bytes of the Python payload string (`input_str.encode('utf-8').hex()`
followed by the hex-pair parse yields exactly that byte sequence); `none`
is Python `None`, and the empty byte list is the falsy empty string, both
of which make `if input_str:` select the read-from-store path for pages
7–10.  The trailing filler `[0x00] * (ntag.size - 17) * 4` clamps to the
empty list when `ntag.size < 17`, as Python list repetition does with a
negative count — `Nat` subtraction models that truncation exactly. -/
def create_byte_array (input_str : Option (List Nat)) (ntag : NTAGData) : List Nat :=
  let mlen := size_to_mlen ntag.size
  let page04 := [0x01, 0x03, mlen, 0x0C]
  let page05 := [0x34, 0x03, 0x15, 0xD1]
  let page06 := [0x01, 0x11, 0x54, 0x02]
  let page11 := [0xFE, 0x00, 0x00, 0x00]
  let pages0_3 :=
    pageOrZero ntag 0 ++ pageOrZero ntag 1 ++ pageOrZero ntag 2 ++ pageOrZero ntag 3
  let pages7_10 :=
    match input_str with
    | some bs => if bs.isEmpty then readPages7_10 ntag else bs
    | none => readPages7_10 ntag
  pages0_3 ++ page04 ++ page05 ++ page06 ++ pages7_10 ++ page11 ++
    List.replicate ((ntag.size - 17) * 4) 0x00 ++ last5

/-- `encode_faba_id`: the ASCII codes of `"en02190530" + id + "00"`. -/
def encode_faba_id (id : List Nat) : List Nat :=
  [0x65, 0x6E] ++ fabaMarker ++ id ++ [0x30, 0x30]

theorem pageOrZero_length (ntag : NTAGData) (i : Nat) :
    (pageOrZero ntag i).length = 4 := by
  unfold pageOrZero
  cases ntag.read_page i with
  | none => rfl
  | some page =>
    dsimp only
    split <;> simp_all

/-- Counterexample to C2: a tag with `total_pages = 16 < 17` and a 16-byte
payload yields a 68-byte image — the clamped filler leaves the fixed
68-byte skeleton — and 68 ≠ 16 * 4, so the "length equals
`total_pages * 4`" part of the claim fails for the sub-17 boundary sizes
it quantifies over. -/
theorem create_byte_array_length_below17 :
    (create_byte_array (some (encode_faba_id [0x31, 0x32, 0x33, 0x34]))
        ⟨[], [], "Unknown", 16⟩).length = 68 ∧ 68 ≠ 16 * 4 := by
  decide

/-- C2 amended: for every tag and every 16-byte payload (and likewise on
the no-payload path, whatever pages 7–10 hold), the image built by
`create_byte_array` has length exactly `total_pages * 4` whenever
`total_pages ≥ 17` — which covers every supported variant size
(42, 45, 135, 231) and the boundary 17 itself — while for
`total_pages < 17` the filler clamps to zero (never a negative-length
buffer) and the image has the fixed skeleton length 68 = 17 * 4 instead
of `total_pages * 4`. -/
theorem create_byte_array_length (ntag : NTAGData) (bs : List Nat)
    (hbs : bs.length = 16) :
    (17 ≤ ntag.size →
      (create_byte_array (some bs) ntag).length = ntag.size * 4 ∧
      (create_byte_array none ntag).length = ntag.size * 4) ∧
    (ntag.size < 17 →
      (create_byte_array (some bs) ntag).length = 17 * 4) := by
  have hbne : bs.isEmpty = false := by
    cases bs
    · simp at hbs
    · rfl
  have hlen := pageOrZero_length ntag
  constructor
  · intro hsize
    constructor <;>
      · simp [create_byte_array, readPages7_10, last5, hbne, hbs, hlen]
        omega
  · intro hsize
    simp [create_byte_array, readPages7_10, last5, hbne, hbs, hlen]
    omega

/-- Witness for C2: a 45-page NTAG213 tag with a 16-byte encoded payload
produces a 180-byte image. -/
theorem create_byte_array_length_witness :
    (create_byte_array (some (encode_faba_id [0x31, 0x32, 0x33, 0x34]))
        ⟨[], [], "NTAG213", 45⟩).length = 45 * 4 :=
  ((create_byte_array_length ⟨[], [], "NTAG213", 45⟩
    (encode_faba_id [0x31, 0x32, 0x33, 0x34]) (by decide)).1 (by decide)).1

/-- Split a byte image into consecutive 4-byte pages starting at index `i`:
loading an image into a page store page by page. -/
def chunkPages : List Nat → Nat → PageStore
  | [], _ => []
  | b :: bs, i => (i, (b :: bs).take 4) :: chunkPages (bs.drop 3) (i + 1)
termination_by l _ => l.length
decreasing_by
  simp_wf
  have := List.length_drop 3 bs
  omega

/-- A fresh tag holding an image loaded page by page (the round-trip
harness: page `i` holds bytes `4i..4i+3` of the image). -/
def loadTag (img : List Nat) : NTAGData :=
  { pages := chunkPages img 0, uid := [], type := "Unknown", size := img.length / 4 }

theorem chunkPages_length (img : List Nat) (i : Nat) :
    (chunkPages img i).length = (img.length + 3) / 4 := by
  induction img, i using chunkPages.induct with
  | case1 i => simp [chunkPages]
  | case2 b bs i ih =>
    simp only [chunkPages, List.length_cons, ih, List.length_drop]
    omega

theorem lookupPage_chunkPages (img : List Nat) (i : Nat) :
    ∀ j, 4 * j < img.length →
      lookupPage (chunkPages img i) (i + j) = some ((img.drop (4 * j)).take 4) := by
  induction img, i using chunkPages.induct with
  | case1 i => intro j h; simp at h
  | case2 b bs i ih =>
    intro j h
    cases j with
    | zero =>
      simp [chunkPages, lookupPage]
    | succ j =>
      have hne : ¬ i = i + (j + 1) := by omega
      simp only [chunkPages, lookupPage, if_neg hne]
      rw [show i + (j + 1) = (i + 1) + j by omega]
      rw [ih j (by simp only [List.length_cons] at h; simp [List.length_drop]; omega)]
      rw [List.drop_drop]
      rw [show 4 * (j + 1) = (3 + 4 * j) + 1 by ring]
      rw [List.drop_succ_cons]

theorem takePayload_cons (b : Nat) (bs : List Nat) (r : Nat)
    (hr : ¬ r = 0) (hb : ¬ b = 0xFE) :
    takePayload (b :: bs) r =
      (b :: (takePayload bs (r - 1)).1, (takePayload bs (r - 1)).2) := by
  simp [takePayload, hr, hb]

theorem takePayload_all_small (pd : List Nat) :
    ∀ r, (∀ x ∈ pd, x < 0xFE) → pd.length ≤ r →
      takePayload pd r = (pd, r - pd.length) := by
  induction pd with
  | nil => intro r _ _; simp [takePayload]
  | cons b bs ih =>
    intro r hx hlen
    simp only [List.length_cons] at hlen
    have hr : ¬ r = 0 := by omega
    rw [takePayload_cons b bs r hr (by have := hx b (by simp); omega)]
    rw [ih (r - 1) (fun x hx' => hx x (by simp [hx'])) (by omega)]
    have harith : r - 1 - bs.length = r - (b :: bs).length := by
      simp only [List.length_cons]
      omega
    rw [harith]

theorem accumPayload_zero_rem (pages : PageStore) (fuel n : Nat) :
    accumPayload pages fuel n 0 = [] := by
  cases fuel <;> simp [accumPayload]

/-- One outer-loop iteration over a page that contains no terminator and
fewer bytes than remain to be read: the whole page is appended. -/
theorem accumPayload_step_small (pages : PageStore) (fuel n r : Nat) (pd : List Nat)
    (hp : lookupPage pages n = some pd) (hr : ¬ r = 0)
    (hsmall : ∀ x ∈ pd, x < 0xFE) (hlen : pd.length ≤ r) :
    accumPayload pages (fuel + 1) n r =
      pd ++ accumPayload pages fuel (n + 1) (r - pd.length) := by
  rw [accumPayload_succ, if_neg hr, hp]
  dsimp only
  rw [takePayload_all_small pd r hsmall hlen]

/-- A UTF-8 byte in the ASCII digit range decodes to itself and leaves the
rest of the stream to be decoded independently. -/
theorem decodeUtf8_digit_cons (x : Nat) (t : List Nat)
    (h1 : 0x30 ≤ x) (h2 : x ≤ 0x39) :
    decodeUtf8 (x :: t) = (decodeUtf8 t).map (fun cs => x :: cs) := by
  interval_cases x <;> rfl

/-- Decoding a store that holds the written FabaID layout: page 6 the fixed
Text-Record header, pages 7–10 the encoded payload `"en02190530" ++ id ++
"00"` for a 4-digit id `[a, b, c, d]`, page 11 the terminator and page 12
zero filler, recovers exactly the id. -/
theorem parse_text_faba_shape (nt : NTAGData) (a b c d : Nat)
    (ha1 : 0x30 ≤ a) (ha2 : a ≤ 0x39) (hb1 : 0x30 ≤ b) (hb2 : b ≤ 0x39)
    (hc1 : 0x30 ≤ c) (hc2 : c ≤ 0x39) (hd1 : 0x30 ≤ d) (hd2 : d ≤ 0x39)
    (h6 : lookupPage nt.pages 6 = some [0x01, 0x11, 0x54, 0x02])
    (h7 : lookupPage nt.pages 7 = some [0x65, 0x6E, 0x30, 0x32])
    (h8 : lookupPage nt.pages 8 = some [0x31, 0x39, 0x30, 0x35])
    (h9 : lookupPage nt.pages 9 = some [0x33, 0x30, a, b])
    (h10 : lookupPage nt.pages 10 = some [c, d, 0x30, 0x30])
    (h11 : lookupPage nt.pages 11 = some [0xFE, 0x00, 0x00, 0x00])
    (h12 : lookupPage nt.pages 12 = some [0x00, 0x00, 0x00, 0x00])
    (hfuel : 6 ≤ nt.pages.length) :
    parse_text nt = .fabaId [a, b, c, d] := by
  have hstep : ∀ u, accumPayload nt.pages (u + 6) 7 17 =
      [0x65, 0x6E, 0x30, 0x32, 0x31, 0x39, 0x30, 0x35, 0x33, 0x30,
        a, b, c, d, 0x30, 0x30, 0x00] := by
    intro u
    rw [show u + 6 = u + 5 + 1 from rfl,
      accumPayload_step_small nt.pages (u + 5) 7 17 [0x65, 0x6E, 0x30, 0x32] h7
        (by omega) (by decide) (by decide)]
    norm_num
    rw [show u + 5 = u + 4 + 1 from rfl,
      accumPayload_step_small nt.pages (u + 4) 8 13 [0x31, 0x39, 0x30, 0x35] h8
        (by omega) (by decide) (by decide)]
    norm_num
    rw [show u + 4 = u + 3 + 1 from rfl,
      accumPayload_step_small nt.pages (u + 3) 9 9 [0x33, 0x30, a, b] h9
        (by omega)
        (by
          intro x hx
          simp only [List.mem_cons, List.not_mem_nil, or_false] at hx
          rcases hx with rfl | rfl | rfl | rfl <;> omega)
        (by simp)]
    norm_num
    rw [show u + 3 = u + 2 + 1 from rfl,
      accumPayload_step_small nt.pages (u + 2) 10 5 [c, d, 0x30, 0x30] h10
        (by omega)
        (by
          intro x hx
          simp only [List.mem_cons, List.not_mem_nil, or_false] at hx
          rcases hx with rfl | rfl | rfl | rfl <;> omega)
        (by simp)]
    norm_num
    rw [show u + 2 = u + 1 + 1 from rfl, accumPayload_succ nt.pages (u + 1) 11 1,
      if_neg (by omega : ¬ (1 : Nat) = 0), h11]
    dsimp only
    rw [(by decide : takePayload [0xFE, 0x00, 0x00, 0x00] 1 = (([] : List Nat), 1))]
    dsimp only
    rw [accumPayload_succ nt.pages u 12 1, if_neg (by omega : ¬ (1 : Nat) = 0), h12]
    dsimp only
    rw [(by decide : takePayload [0x00, 0x00, 0x00, 0x00] 1 = (([0x00] : List Nat), 0))]
    dsimp only
    rw [accumPayload_zero_rem]
    simp
  have hL := hstep (nt.pages.length + 1 - 6)
  rw [show nt.pages.length + 1 - 6 + 6 = nt.pages.length + 1 by omega] at hL
  unfold parse_text NTAGData.read_page
  rw [h6]
  dsimp only
  rw [show (([0x01, 0x11, 0x54, 0x02] : List Nat))[0]? = some 0x01 from rfl,
    show (([0x01, 0x11, 0x54, 0x02] : List Nat))[1]? = some 0x11 from rfl,
    show (([0x01, 0x11, 0x54, 0x02] : List Nat))[2]? = some 0x54 from rfl,
    show (([0x01, 0x11, 0x54, 0x02] : List Nat))[3]? = some 0x02 from rfl]
  dsimp only
  rw [hL]
  set L := [0x65, 0x6E, 0x30, 0x32, 0x31, 0x39, 0x30, 0x35, 0x33, 0x30,
    a, b, c, d, 0x30, 0x30, 0x00] with hLdef
  have hlen17 : L.length = 17 := by rw [hLdef]; rfl
  simp only [(by decide : (0x02 : Nat) &&& 0x3F = 2), (by decide : (0x02 : Nat) &&& 0x80 = 0)]
  rw [if_neg (by rw [hlen17]; omega)]
  rw [if_neg (by omega : ¬ (0 : Nat) ≠ 0)]
  rw [show L.take 2 = [0x65, 0x6E] by rw [hLdef]; rfl,
    (by decide : decodeAscii [0x65, 0x6E] = some [0x65, 0x6E])]
  rw [show L.drop 2 = 0x30 :: 0x32 :: 0x31 :: 0x39 :: 0x30 :: 0x35 :: 0x33 :: 0x30 ::
      a :: b :: c :: d :: 0x30 :: 0x30 :: 0x00 :: [] by rw [hLdef]; rfl]
  have hdecode : decodeUtf8 (0x30 :: 0x32 :: 0x31 :: 0x39 :: 0x30 :: 0x35 :: 0x33 :: 0x30 ::
      a :: b :: c :: d :: 0x30 :: 0x30 :: 0x00 :: []) =
      some (0x30 :: 0x32 :: 0x31 :: 0x39 :: 0x30 :: 0x35 :: 0x33 :: 0x30 ::
        a :: b :: c :: d :: 0x30 :: 0x30 :: 0x00 :: []) := by
    rw [decodeUtf8_digit_cons 0x30 _ (by norm_num) (by norm_num),
      decodeUtf8_digit_cons 0x32 _ (by norm_num) (by norm_num),
      decodeUtf8_digit_cons 0x31 _ (by norm_num) (by norm_num),
      decodeUtf8_digit_cons 0x39 _ (by norm_num) (by norm_num),
      decodeUtf8_digit_cons 0x30 _ (by norm_num) (by norm_num),
      decodeUtf8_digit_cons 0x35 _ (by norm_num) (by norm_num),
      decodeUtf8_digit_cons 0x33 _ (by norm_num) (by norm_num),
      decodeUtf8_digit_cons 0x30 _ (by norm_num) (by norm_num),
      decodeUtf8_digit_cons a _ ha1 ha2,
      decodeUtf8_digit_cons b _ hb1 hb2,
      decodeUtf8_digit_cons c _ hc1 hc2,
      decodeUtf8_digit_cons d _ hd1 hd2,
      decodeUtf8_digit_cons 0x30 _ (by norm_num) (by norm_num),
      decodeUtf8_digit_cons 0x30 _ (by norm_num) (by norm_num)]
    rfl
  rw [hdecode]
  dsimp only
  rw [if_pos ⟨by rfl, by simp⟩]
  rfl

/-- The image built from a non-empty payload, as the 16 copied header bytes
followed by the fixed pages 4–6, the payload, the terminator page, the
filler and the trailer. -/
theorem create_byte_array_decomp (ntag : NTAGData) (bs : List Nat)
    (hne : bs.isEmpty = false) :
    create_byte_array (some bs) ntag =
      (pageOrZero ntag 0 ++ pageOrZero ntag 1 ++ pageOrZero ntag 2 ++ pageOrZero ntag 3) ++
      (0x01 :: 0x03 :: size_to_mlen ntag.size :: 0x0C ::
       0x34 :: 0x03 :: 0x15 :: 0xD1 ::
       0x01 :: 0x11 :: 0x54 :: 0x02 ::
       (bs ++ (0xFE :: 0x00 :: 0x00 :: 0x00 ::
         (List.replicate ((ntag.size - 17) * 4) 0x00 ++ last5)))) := by
  simp [create_byte_array, hne, List.append_assoc]

/-- C3: round-trip.  For every 4-digit FabaID and every supported variant
size, encoding the id, building the byte image with `create_byte_array`,
loading that image into a page store page by page and decoding it with
`parse_text` recovers exactly the same id. -/
theorem encode_create_decode_roundtrip (ntag : NTAGData) (id : List Nat)
    (hlen : id.length = 4) (hdig : ∀ x ∈ id, 0x30 ≤ x ∧ x ≤ 0x39)
    (hvar : ntag.size = 42 ∨ ntag.size = 45 ∨ ntag.size = 135 ∨ ntag.size = 231) :
    parse_text (loadTag (create_byte_array (some (encode_faba_id id)) ntag)) =
      .fabaId id := by
  obtain ⟨a, b, c, d, rfl⟩ : ∃ a b c d, id = [a, b, c, d] := by
    rcases id with _ | ⟨a, _ | ⟨b, _ | ⟨c, _ | ⟨d, _ | ⟨e, tl⟩⟩⟩⟩⟩ <;> simp_all
  obtain ⟨ha1, ha2⟩ := hdig a (by simp)
  obtain ⟨hb1, hb2⟩ := hdig b (by simp)
  obtain ⟨hc1, hc2⟩ := hdig c (by simp)
  obtain ⟨hd1, hd2⟩ := hdig d (by simp)
  have hsize : 21 ≤ ntag.size := by rcases hvar with h | h | h | h <;> omega
  have hbs : encode_faba_id [a, b, c, d] =
      0x65 :: 0x6E :: 0x30 :: 0x32 :: 0x31 :: 0x39 :: 0x30 :: 0x35 :: 0x33 :: 0x30 ::
        a :: b :: c :: d :: 0x30 :: 0x30 :: [] := rfl
  have hdec := create_byte_array_decomp ntag (encode_faba_id [a, b, c, d])
    (by rw [hbs]; rfl)
  rw [hbs] at hdec
  rw [hbs, hdec]
  set P := pageOrZero ntag 0 ++ pageOrZero ntag 1 ++ pageOrZero ntag 2 ++ pageOrZero ntag 3
    with hPdef
  have hP : P.length = 16 := by rw [hPdef]; simp [pageOrZero_length]
  set k := (ntag.size - 17) * 4 with hkdef
  have hk : 16 ≤ k := by rw [hkdef]; omega
  set T := 0x01 :: 0x03 :: size_to_mlen ntag.size :: 0x0C ::
    0x34 :: 0x03 :: 0x15 :: 0xD1 :: 0x01 :: 0x11 :: 0x54 :: 0x02 ::
    ([0x65, 0x6E, 0x30, 0x32, 0x31, 0x39, 0x30, 0x35, 0x33, 0x30,
        a, b, c, d, 0x30, 0x30] ++
      0xFE :: 0x00 :: 0x00 :: 0x00 :: (List.replicate k 0x00 ++ last5)) with hTdef
  have hTlen : T.length = 52 + k := by
    rw [hTdef]
    simp [last5]
    omega
  apply parse_text_faba_shape _ a b c d ha1 ha2 hb1 hb2 hc1 hc2 hd1 hd2
  · have hlook := lookupPage_chunkPages (P ++ T) 0 6
      (by simp [hP, hTlen]; omega)
    rw [Nat.zero_add] at hlook
    rw [show (4 * 6 : Nat) = 16 + 8 from rfl, ← List.drop_drop,
      List.drop_left' hP] at hlook
    exact hlook
  · have hlook := lookupPage_chunkPages (P ++ T) 0 7
      (by simp [hP, hTlen]; omega)
    rw [Nat.zero_add] at hlook
    rw [show (4 * 7 : Nat) = 16 + 12 from rfl, ← List.drop_drop,
      List.drop_left' hP] at hlook
    exact hlook
  · have hlook := lookupPage_chunkPages (P ++ T) 0 8
      (by simp [hP, hTlen]; omega)
    rw [Nat.zero_add] at hlook
    rw [show (4 * 8 : Nat) = 16 + 16 from rfl, ← List.drop_drop,
      List.drop_left' hP] at hlook
    exact hlook
  · have hlook := lookupPage_chunkPages (P ++ T) 0 9
      (by simp [hP, hTlen]; omega)
    rw [Nat.zero_add] at hlook
    rw [show (4 * 9 : Nat) = 16 + 20 from rfl, ← List.drop_drop,
      List.drop_left' hP] at hlook
    exact hlook
  · have hlook := lookupPage_chunkPages (P ++ T) 0 10
      (by simp [hP, hTlen]; omega)
    rw [Nat.zero_add] at hlook
    rw [show (4 * 10 : Nat) = 16 + 24 from rfl, ← List.drop_drop,
      List.drop_left' hP] at hlook
    exact hlook
  · have hlook := lookupPage_chunkPages (P ++ T) 0 11
      (by simp [hP, hTlen]; omega)
    rw [Nat.zero_add] at hlook
    rw [show (4 * 11 : Nat) = 16 + 28 from rfl, ← List.drop_drop,
      List.drop_left' hP] at hlook
    exact hlook
  · have hlook := lookupPage_chunkPages (P ++ T) 0 12
      (by simp [hP, hTlen]; omega)
    rw [Nat.zero_add] at hlook
    rw [show (4 * 12 : Nat) = 16 + 32 from rfl, ← List.drop_drop,
      List.drop_left' hP] at hlook
    nth_rewrite 2 [hTdef] at hlook
    rw [show k = 4 + (k - 4) by omega, List.replicate_add] at hlook
    exact hlook
  · dsimp only [loadTag]
    rw [chunkPages_length]
    simp [List.length_append, hP, hTlen]
    omega

/-- Witness for C3: round-tripping the id `"1234"` through a 45-page
NTAG213 image recovers `"1234"`. -/
theorem encode_create_decode_roundtrip_witness :
    parse_text (loadTag (create_byte_array
        (some (encode_faba_id [0x31, 0x32, 0x33, 0x34])) ⟨[], [], "NTAG213", 45⟩)) =
      .fabaId [0x31, 0x32, 0x33, 0x34] :=
  encode_create_decode_roundtrip ⟨[], [], "NTAG213", 45⟩ [0x31, 0x32, 0x33, 0x34]
    (by decide) (by decide) (by decide)

/-- Result of one `pn532.ntag2xx_write_block` call: `ok` (returned a truthy
value), `failed` (returned `False`) or `exn` (raised).  `write_blocks`
aborts on the latter two alike, but the page write was issued in all
three cases. -/
inductive WriteOutcome where
  | ok : WriteOutcome
  | failed : WriteOutcome
  | exn : WriteOutcome
deriving DecidableEq

/-- The reader, as the write/verify protocol observes it: the UID returned
by the `read_passive_target` poll (`none` on timeout), the outcome of each
single-page `ntag2xx_write_block`, and the bytes each single-page
`ntag2xx_read_block` read returns (`none` when it raises). -/
structure Hardware where
  presentUid : Option (List Nat)
  writeResult : Nat → WriteOutcome
  readResult : Nat → Option (List Nat)

/-- The 4-byte slice `byte_array[block_num * 4 : block_num * 4 + 4]`. -/
def pageSlice (byte_array : List Nat) (block_num : Nat) : List Nat :=
  (byte_array.drop (block_num * 4)).take 4

/-- The page loop of `write_blocks` over `count` remaining pages
(`range(start, end + 1)` runs `end + 1 - start` iterations): the returned
`Bool` is the loop's verdict and the list logs every page write actually
issued to the hardware, with the bytes sent. -/
def writeLoop (hw : Hardware) (byte_array : List Nat) :
    Nat → Nat → Bool × List (Nat × List Nat)
  | _, 0 => (true, [])
  | start, count + 1 =>
    let block_data := pageSlice byte_array start
    match hw.writeResult start with
    | .ok =>
      let rest := writeLoop hw byte_array (start + 1) count
      (rest.1, (start, block_data) :: rest.2)
    | _ => (false, [(start, block_data)])

/-- `write_blocks`: re-read the present tag's UID; only when it equals the
UID captured at detection, write pages `start..end` one page per call.
Returns the Python function's `bool` along with the log of issued page
writes (empty when the guard fails: Python returns `False` before the
loop). -/
def write_blocks (hw : Hardware) (byte_array : List Nat) (start fin : Nat)
    (ntag : NTAGData) : Bool × List (Nat × List Nat) :=
  if hw.presentUid = some ntag.uid then writeLoop hw byte_array start (fin + 1 - start)
  else (false, [])

/-- The observable outcome of `verify_blocks`, one constructor per exit
path: the logged read failure, the logged mismatch (with the page index,
expected bytes and read-back bytes the log reports), or success.
Python compares the two hex-string renderings, which on byte values agrees
with comparing the 4-byte sequences themselves. -/
inductive VerifyOutcome where
  | success : VerifyOutcome
  | readFail : Nat → VerifyOutcome
  | mismatch : Nat → List Nat → List Nat → VerifyOutcome
deriving DecidableEq

/-- The page loop of `verify_blocks` over `count` remaining pages; the
second component logs the pages actually read back, in order. -/
def verifyLoop (hw : Hardware) (byte_array : List Nat) :
    Nat → Nat → VerifyOutcome × List Nat
  | _, 0 => (.success, [])
  | start, count + 1 =>
    let expected_data := pageSlice byte_array start
    match hw.readResult start with
    | none => (.readFail start, [start])
    | some read_data =>
      if expected_data = read_data then
        let rest := verifyLoop hw byte_array (start + 1) count
        (rest.1, start :: rest.2)
      else (.mismatch start expected_data read_data, [start])

/-- `verify_blocks`: read back pages `start..end` in ascending order and
compare each against the intended image. -/
def verify_blocks (hw : Hardware) (byte_array : List Nat) (start fin : Nat) :
    VerifyOutcome × List Nat :=
  verifyLoop hw byte_array start (fin + 1 - start)

/-- `write_ntag`: encode the id, build the image, write pages 4–11 and,
only if every write succeeded, verify pages 4–11.  Returns the reported
success and the log of issued page writes. -/
def write_ntag (hw : Hardware) (id : List Nat) (ntag : NTAGData) :
    Bool × List (Nat × List Nat) :=
  let text := encode_faba_id id
  let byte_array := create_byte_array (some text) ntag
  let w := write_blocks hw byte_array 4 11 ntag
  (w.1 && decide ((verify_blocks hw byte_array 4 11).1 = .success), w.2)

/-- C5: if the UID re-read immediately before writing differs from the UID
captured at initial detection, `write_blocks` fails and not a single page
write is issued to the hardware; conversely a non-empty write log implies
the two UIDs were exactly equal. -/
theorem write_blocks_uid_guard (hw : Hardware) (byte_array : List Nat)
    (start fin : Nat) (ntag : NTAGData) :
    (hw.presentUid ≠ some ntag.uid →
      write_blocks hw byte_array start fin ntag = (false, [])) ∧
    ((write_blocks hw byte_array start fin ntag).2 ≠ [] →
      hw.presentUid = some ntag.uid) := by
  constructor
  · intro h
    unfold write_blocks
    rw [if_neg h]
  · intro h
    by_contra hne
    unfold write_blocks at h
    rw [if_neg hne] at h
    exact h rfl

/-- Witness for C5: a tag swapped mid-operation (UID `01..07` present,
`09 09 ...` captured) makes the write fail with an empty write log. -/
theorem write_blocks_uid_guard_witness :
    write_blocks ⟨some [1, 2, 3, 4, 5, 6, 7], fun _ => .ok, fun _ => none⟩
        (List.replicate 48 0) 4 11 ⟨[], [9, 9, 9, 9, 9, 9, 9], "NTAG213", 45⟩ =
      (false, []) :=
  (write_blocks_uid_guard ⟨some [1, 2, 3, 4, 5, 6, 7], fun _ => .ok, fun _ => none⟩
    (List.replicate 48 0) 4 11 ⟨[], [9, 9, 9, 9, 9, 9, 9], "NTAG213", 45⟩).1 (by decide)

theorem writeLoop_mem (hw : Hardware) (byte_array : List Nat) :
    ∀ count start p d, (p, d) ∈ (writeLoop hw byte_array start count).2 →
      start ≤ p ∧ p < start + count := by
  intro count
  induction count with
  | zero => intro start p d h; simp [writeLoop] at h
  | succ count ih =>
    intro start p d h
    simp only [writeLoop] at h
    cases hwr : hw.writeResult start <;> rw [hwr] at h <;> dsimp only at h
    · rcases List.mem_cons.mp h with heq | hmem
      · obtain ⟨rfl, -⟩ := Prod.mk.injEq .. ▸ (Prod.ext_iff.mp heq)
        omega
      · have := ih (start + 1) p d hmem
        omega
    · rcases List.mem_singleton.mp h with heq
      obtain ⟨rfl, -⟩ := Prod.ext_iff.mp heq
      omega
    · rcases List.mem_singleton.mp h with heq
      obtain ⟨rfl, -⟩ := Prod.ext_iff.mp heq
      omega

/-- C8: the write operation mutates only pages 4 through 11: every page
write issued by `write_ntag` targets a page index in `4..11` inclusive, so
pages 0–3 and every page from 12 on (the trailer included) are never
written. -/
theorem write_ntag_range (hw : Hardware) (id : List Nat) (ntag : NTAGData)
    (p : Nat) (d : List Nat) (h : (p, d) ∈ (write_ntag hw id ntag).2) :
    4 ≤ p ∧ p ≤ 11 := by
  have h2 : (write_ntag hw id ntag).2 =
      (write_blocks hw (create_byte_array (some (encode_faba_id id)) ntag) 4 11 ntag).2 :=
    rfl
  rw [h2] at h
  unfold write_blocks at h
  by_cases hg : hw.presentUid = some ntag.uid
  · rw [if_pos hg] at h
    have := writeLoop_mem hw _ (11 + 1 - 4) 4 p d h
    omega
  · rw [if_neg hg] at h
    simp at h

/-- Witness for C8: with the matching UID present and an all-ok reader,
the first write `write_ntag` issues is page 4 with the fixed page-4 bytes,
and the theorem places it inside `4..11`. -/
theorem write_ntag_range_witness : 4 ≤ 4 ∧ 4 ≤ 11 :=
  write_ntag_range ⟨some [1, 2, 3, 4, 5, 6, 7], fun _ => .ok, fun _ => none⟩
    [0x31, 0x32, 0x33, 0x34] ⟨[], [1, 2, 3, 4, 5, 6, 7], "NTAG213", 45⟩
    4 [0x01, 0x03, 0xA0, 0x0C] (by decide)

theorem verifyLoop_first_mismatch (hw : Hardware) (byte_array : List Nat) :
    ∀ count start p rd, start ≤ p → p < start + count →
      (∀ q, start ≤ q → q < p → hw.readResult q = some (pageSlice byte_array q)) →
      hw.readResult p = some rd → rd ≠ pageSlice byte_array p →
      verifyLoop hw byte_array start count =
        (.mismatch p (pageSlice byte_array p) rd, List.range' start (p + 1 - start)) := by
  intro count
  induction count with
  | zero => intro start p rd h1 h2 _ _ _; omega
  | succ count ih =>
    intro start p rd h1 h2 hprev hp hne
    by_cases hsp : p = start
    · subst hsp
      simp only [verifyLoop]
      rw [hp]
      dsimp only
      rw [if_neg (fun heq => hne heq.symm)]
      rw [show p + 1 - p = 1 by omega]
      rfl
    · have hmatch := hprev start (Nat.le_refl start) (by omega)
      simp only [verifyLoop]
      rw [hmatch]
      dsimp only
      rw [if_pos rfl]
      rw [ih (start + 1) p rd (by omega) (by omega)
        (fun q hq1 hq2 => hprev q (by omega) hq2) hp hne]
      rw [show p + 1 - start = (p - start) + 1 by omega, List.range'_succ]
      rw [show p + 1 - (start + 1) = p - start by omega]

theorem verifyLoop_success (hw : Hardware) (byte_array : List Nat) :
    ∀ count start, (verifyLoop hw byte_array start count).1 = .success →
      ∀ q, start ≤ q → q < start + count →
        hw.readResult q = some (pageSlice byte_array q) := by
  intro count
  induction count with
  | zero => intro start _ q h1 h2; omega
  | succ count ih =>
    intro start hs q h1 h2
    simp only [verifyLoop] at hs
    cases hr : hw.readResult start with
    | none =>
      rw [hr] at hs
      dsimp only at hs
      exact absurd hs (by simp)
    | some read_data =>
      rw [hr] at hs
      dsimp only at hs
      by_cases he : pageSlice byte_array start = read_data
      · rw [if_pos he] at hs
        dsimp only at hs
        by_cases hq : q = start
        · subst hq
          rw [hr, he]
        · exact ih (start + 1) hs q (by omega) (by omega)
      · rw [if_neg he] at hs
        dsimp only at hs
        exact absurd hs (by simp)

/-- C6: the pages of the range `start..end` are read back in ascending
order and compared byte-for-byte against the intended image; at the first
page whose read-back differs, verification fails with a mismatch naming
that page, its expected bytes and the bytes read, and no page after it is
read or compared — the read log is exactly `start..p`.  Verification
reports success only when every page in the range reads back equal to the
intended image. -/
theorem verify_blocks_spec (hw : Hardware) (byte_array : List Nat) :
    (∀ start fin p rd, start ≤ p → p ≤ fin →
      (∀ q, start ≤ q → q < p → hw.readResult q = some (pageSlice byte_array q)) →
      hw.readResult p = some rd → rd ≠ pageSlice byte_array p →
      verify_blocks hw byte_array start fin =
        (.mismatch p (pageSlice byte_array p) rd, List.range' start (p + 1 - start))) ∧
    (∀ start fin, (verify_blocks hw byte_array start fin).1 = .success →
      ∀ q, start ≤ q → q ≤ fin → hw.readResult q = some (pageSlice byte_array q)) := by
  constructor
  · intro start fin p rd h1 h2 hprev hp hne
    exact verifyLoop_first_mismatch hw byte_array (fin + 1 - start) start p rd
      h1 (by omega) hprev hp hne
  · intro start fin hs q h1 h2
    exact verifyLoop_success hw byte_array (fin + 1 - start) start hs q h1 (by omega)

/-- Witness for C6: page 8 is expected `00 00 00 00` but reads back
`11 22 33 44`: verification of `4..11` fails with a mismatch naming
page 8, and only pages 4–8 were read back. -/
theorem verify_blocks_spec_witness :
    verify_blocks
        ⟨none, fun _ => .ok,
          fun q => if q = 8 then some [0x11, 0x22, 0x33, 0x44] else some [0, 0, 0, 0]⟩
        (List.replicate 48 0) 4 11 =
      (.mismatch 8 (pageSlice (List.replicate 48 0) 8) [0x11, 0x22, 0x33, 0x44],
        List.range' 4 (8 + 1 - 4)) :=
  (verify_blocks_spec _ _).1 4 11 8 [0x11, 0x22, 0x33, 0x44] (by omega) (by omega)
    (by intro q hq1 hq2; interval_cases q <;> rfl)
    (by rfl) (by decide)

/-- `chr(byte) in string.printable and byte >= 0x20`: `string.printable`
contains every ASCII character from `0x20` to `0x7E` (plus whitespace
controls excluded by the `>= 0x20` conjunct), so the test is exactly
`0x20 ≤ byte ≤ 0x7E`. -/
def printableChar (b : Nat) : Bool := decide (0x20 ≤ b) && decide (b ≤ 0x7E)

/-- One digit of `f"{byte:02X}"`: uppercase hexadecimal. -/
def hexDigitChar (n : Nat) : Char :=
  if n < 10 then Char.ofNat (0x30 + n) else Char.ofNat (0x37 + n)

/-- `f"{byte:02X}"` for a byte value (< 256): two uppercase hex digits. -/
def byteHexUpper (b : Nat) : List Char :=
  [hexDigitChar (b / 16 % 16), hexDigitChar (b % 16)]

/-- `save_raw` writes to `f"{filename}.raw"`. -/
def save_raw_name (filename : List Char) : List Char :=
  filename ++ ['.', 'r', 'a', 'w']

/-- `save_ndef` writes to `f"{filename}.ndef"`. -/
def save_ndef_name (filename : List Char) : List Char :=
  filename ++ ['.', 'n', 'd', 'e', 'f']

/-- `save_flipper` writes to `f"{filename}.nfc"`. -/
def save_flipper_name (filename : List Char) : List Char :=
  filename ++ ['.', 'n', 'f', 'c']

/-- `dump_ntag`: when the image is longer than 43 bytes, derive the
filename stem from `byte_array[38:42]` — keeping the printable characters
and dropping the rest — falling back to the UID rendered as uppercase hex
when no character survives, and hand the same stem to the three
serializers; the result is their three file names.  `none` models the
guard's silent no-file path. -/
def dump_ntag (byte_array : List Nat) (ntag : NTAGData) :
    Option (List Char × List Char × List Char) :=
  if 43 < byte_array.length then
    let filename_bytes := (byte_array.drop 38).take 4
    let filename := filename_bytes.filterMap
      (fun b => if printableChar b then some (Char.ofNat b) else none)
    let filename := if filename = [] then ntag.uid.flatMap byteHexUpper else filename
    some (save_raw_name filename, save_ndef_name filename, save_flipper_name filename)
  else none

/-- Counterexample to C9: an image whose bytes 38–41 are
`[0x41, 0x00, 0x42, 0x00]` — not all printable, so by the claim the stem
should be the UID hex `01020304050607` — instead produces the partial
stem `"AB"` made of the printable subset. -/
theorem dump_ntag_mixed_printable :
    dump_ntag (List.replicate 38 0 ++ [0x41, 0x00, 0x42, 0x00] ++ [0, 0])
        ⟨[], [1, 2, 3, 4, 5, 6, 7], "NTAG213", 45⟩ =
      some (['A', 'B', '.', 'r', 'a', 'w'], ['A', 'B', '.', 'n', 'd', 'e', 'f'],
        ['A', 'B', '.', 'n', 'f', 'c']) ∧
    ¬ (∀ b ∈ ((List.replicate 38 0 ++ [0x41, 0x00, 0x42, 0x00] ++ [0, 0]).drop 38).take 4,
        printableChar b = true) ∧
    (['A', 'B'] : List Char) ≠
      ([1, 2, 3, 4, 5, 6, 7] : List Nat).flatMap byteHexUpper := by
  refine ⟨by decide, by decide, by decide⟩

theorem filterMap_if_all_true (p : Nat → Bool) (f : Nat → Char) (l : List Nat)
    (h : ∀ b ∈ l, p b = true) :
    l.filterMap (fun b => if p b then some (f b) else none) = l.map f := by
  induction l with
  | nil => rfl
  | cons b l ih =>
    rw [List.filterMap_cons, List.map_cons]
    rw [if_pos (h b (by simp))]
    rw [ih (fun x hx => h x (by simp [hx]))]

theorem filterMap_if_all_false (p : Nat → Bool) (f : Nat → Char) (l : List Nat)
    (h : ∀ b ∈ l, p b = false) :
    l.filterMap (fun b => if p b then some (f b) else none) = [] := by
  induction l with
  | nil => rfl
  | cons b l ih =>
    rw [List.filterMap_cons]
    rw [if_neg (by rw [h b (by simp)]; simp)]
    exact ih (fun x hx => h x (by simp [hx]))

/-- C9 amended: for every image longer than 43 bytes, the three serializers
are handed one common stem with their own extensions appended
(`.raw`, `.ndef`, `.nfc`); when all of bytes 38–41 are printable the stem
is those four bytes read as ASCII, and when none of them is printable the
stem is the tag UID as uppercase hex.  (When only some are printable the
stem keeps exactly the printable subset — see the counterexample.) -/
theorem dump_ntag_stem (byte_array : List Nat) (ntag : NTAGData)
    (hlen : 43 < byte_array.length) :
    ((∀ b ∈ (byte_array.drop 38).take 4, printableChar b = true) →
      dump_ntag byte_array ntag =
        some (save_raw_name (((byte_array.drop 38).take 4).map Char.ofNat),
          save_ndef_name (((byte_array.drop 38).take 4).map Char.ofNat),
          save_flipper_name (((byte_array.drop 38).take 4).map Char.ofNat))) ∧
    ((∀ b ∈ (byte_array.drop 38).take 4, printableChar b = false) →
      dump_ntag byte_array ntag =
        some (save_raw_name (ntag.uid.flatMap byteHexUpper),
          save_ndef_name (ntag.uid.flatMap byteHexUpper),
          save_flipper_name (ntag.uid.flatMap byteHexUpper))) := by
  have h4 : ((byte_array.drop 38).take 4).length = 4 := by
    rw [List.length_take, List.length_drop]
    omega
  constructor
  · intro hall
    unfold dump_ntag
    rw [if_pos hlen]
    dsimp only
    rw [filterMap_if_all_true printableChar Char.ofNat _ hall]
    rw [if_neg (by
      intro hnil
      have := congrArg List.length hnil
      rw [List.length_map, h4] at this
      simp at this)]
  · intro hnone
    unfold dump_ntag
    rw [if_pos hlen]
    dsimp only
    rw [filterMap_if_all_false printableChar Char.ofNat _ hnone]
    rw [if_pos rfl]

/-- Witness for C9: bytes 38–41 spell `"TEST"`, so the three files are
`TEST.raw`, `TEST.ndef` and `TEST.nfc`. -/
theorem dump_ntag_stem_witness :
    dump_ntag (List.replicate 38 0 ++ [0x54, 0x45, 0x53, 0x54] ++ [0, 0])
        ⟨[], [1, 2, 3, 4, 5, 6, 7], "NTAG213", 45⟩ =
      some (save_raw_name
          ((((List.replicate 38 0 ++ [0x54, 0x45, 0x53, 0x54] ++ [0, 0]).drop 38).take 4).map
            Char.ofNat),
        save_ndef_name
          ((((List.replicate 38 0 ++ [0x54, 0x45, 0x53, 0x54] ++ [0, 0]).drop 38).take 4).map
            Char.ofNat),
        save_flipper_name
          ((((List.replicate 38 0 ++ [0x54, 0x45, 0x53, 0x54] ++ [0, 0]).drop 38).take 4).map
            Char.ofNat)) :=
  (dump_ntag_stem (List.replicate 38 0 ++ [0x54, 0x45, 0x53, 0x54] ++ [0, 0])
    ⟨[], [1, 2, 3, 4, 5, 6, 7], "NTAG213", 45⟩ (by decide)).1 (by decide)

end FabaNtag
